import Mathlib

/-!
Shallow embedding of `src/src/lib.rs` from the `tockloader-proto-rs`
repository: a byte-at-a-time parser for the Tockloader bootloader
protocol.  Bytes are modelled as `Nat` (with the `u8` range `< 256`
carried as a hypothesis where it matters), the 520-byte buffer as a
`List Nat` of length 520, and `u32` arithmetic with explicit `% 2 ^ 32`.
A Rust panic (out-of-bounds index or slice) is modelled as `Option.none`
at the level of a whole `receive` call.
-/

namespace Tockloader

/-- `enum State` from the source: the two parser modes. -/
inductive State where
  | Loading
  | Escape
deriving DecidableEq, Repr

/-- `enum Command` from the source.  `WritePage`'s borrowed slice is
modelled as the list of bytes it denotes. -/
inductive Command where
  | Ping
  | Info
  | Reset
  | ErasePage (addr : Nat)
  | WritePage (addr : Nat) (data : List Nat)
  | ReadRange
  | SetAttribute
  | GetAttribute
  | CrcInternalFlash
  | ChangeBaudRate
  | BadCommand
deriving DecidableEq, Repr

/-- `struct Parser { state, buffer: [u8; 520], count: usize }`. -/
structure Parser where
  state : State
  buffer : List Nat
  count : Nat
deriving DecidableEq, Repr

/-- `Parser::new()`: Loading state, 520 zero bytes, count 0. -/
def Parser.new : Parser :=
  { state := State.Loading, buffer := List.replicate 520 0, count := 0 }

/-- Rust slice expression `&buf[a..b]`: the sub-list of indices
`[a, b)`, or `none` (panic) when `a > b` or `b > buf.len()`. -/
def sliceRange (buf : List Nat) (a b : Nat) : Option (List Nat) :=
  if a ≤ b ∧ b ≤ buf.length then some ((buf.drop a).take (b - a)) else none

/-- `Parser::parse_u32`: reads `data[3], data[2], data[1], data[0]` and
assembles them with `u32` shifts and adds, exactly as the source does
(`result += data[i]; result <<= 8; ...`).  `none` models the panic when
`data` has fewer than 4 elements. -/
def parse_u32 (data : List Nat) : Option Nat := do
  let b3 ← data.get? 3
  let b2 ← data.get? 2
  let b1 ← data.get? 1
  let b0 ← data.get? 0
  let r := (0 + b3) % 2 ^ 32
  let r := (r <<< 8) % 2 ^ 32
  let r := (r + b2) % 2 ^ 32
  let r := (r <<< 8) % 2 ^ 32
  let r := (r + b1) % 2 ^ 32
  let r := (r <<< 8) % 2 ^ 32
  let r := (r + b0) % 2 ^ 32
  some r

/-- `Parser::load_char`: store `ch` at index `count` and bump `count`,
but only while `count < buffer.len()`; otherwise silently discard. -/
def Parser.load_char (p : Parser) (ch : Nat) : Parser :=
  if p.count < p.buffer.length then
    { p with buffer := p.buffer.set p.count ch, count := p.count + 1 }
  else p

/-- `Parser::handle_loading`: `0xFC` switches to Escape, anything else
is buffered; never emits a command. -/
def Parser.handle_loading (p : Parser) (ch : Nat) : Option Command × Parser :=
  if ch = 0xFC then (none, { p with state := State.Escape })
  else (none, p.load_char ch)

/-- `Parser::handle_escape`: state goes back to Loading first, then the
escape byte is dispatched; whenever a command (`some`) is produced,
`count` is reset to 0.  The outer `Option` is `none` exactly when the
Rust code would panic (the `0x06` arm slices `buffer[count-4..count-1]`,
three bytes, and `parse_u32` then indexes element 3 of it). -/
def Parser.handle_escape (p : Parser) (ch : Nat) : Option (Option Command × Parser) :=
  let q : Parser := { p with state := State.Loading }
  let res : Option (Option Command × Parser) :=
    if ch = 0xFC then
      some (none, q.load_char ch)
    else if ch = 0x01 then some (some Command.Ping, q)
    else if ch = 0x03 then some (some Command.Info, q)
    else if ch = 0x05 then some (some Command.Reset, q)
    else if ch = 0x06 then
      if q.count ≥ 4 then
        match (sliceRange q.buffer (q.count - 4) (q.count - 1)).bind parse_u32 with
        | some addr => some (some (Command.ErasePage addr), q)
        | none => none
      else some (some Command.BadCommand, q)
    else if ch = 0x07 then
      let num_expected_bytes : Nat := 512 + 4
      if q.count ≥ num_expected_bytes then
        let start := q.count - num_expected_bytes
        match (sliceRange q.buffer start (start + 4)).bind parse_u32 with
        | some addr =>
          match sliceRange q.buffer (start + 4) (start + num_expected_bytes) with
          | some data => some (some (Command.WritePage addr data), q)
          | none => none
        | none => none
      else some (some Command.BadCommand, q)
    else some (none, q)
  res.map (fun r => (r.1, if r.1.isSome then { r.2 with count := 0 } else r.2))

/-- `Parser::receive`: dispatch on the current state.  `none` models a
panic of the call. -/
def Parser.receive (p : Parser) (ch : Nat) : Option (Option Command × Parser) :=
  match p.state with
  | State.Loading => some (p.handle_loading ch)
  | State.Escape => p.handle_escape ch

/-- Feed a whole byte sequence, collecting the emitted
`Option Command` results; `none` as soon as any call panics. -/
def Parser.receiveSeq (p : Parser) : List Nat → Option (List (Option Command) × Parser)
  | [] => some ([], p)
  | ch :: rest => do
    let r ← p.receive ch
    let s ← r.2.receiveSeq rest
    some (r.1 :: s.1, s.2)

/-- A parser state is reachable when some byte sequence drives a fresh
parser to it without any call panicking. -/
def Reachable (p : Parser) : Prop :=
  ∃ s outs, Parser.new.receiveSeq s = some (outs, p)

/-- Structural well-formedness: buffer physically 520 bytes, logical
count within capacity. -/
def Parser.Wf (p : Parser) : Prop :=
  p.buffer.length = 520 ∧ p.count ≤ 520

/-- Escaping rule of the wire format: a literal 0xFC data byte is sent
doubled; other bytes are sent as themselves. -/
def escapeBytes : List Nat → List Nat
  | [] => []
  | b :: rest => if b = 0xFC then b :: b :: escapeBytes rest else b :: escapeBytes rest

/-- Overwrite `buf` in place starting at index `i` with the bytes `xs`,
the cumulative effect of successive `load_char` calls. -/
def writeList (buf : List Nat) (i : Nat) : List Nat → List Nat
  | [] => buf
  | x :: xs => writeList (buf.set i x) (i + 1) xs

/-- Modelled from the spec: little-endian interpretation of a byte list,
first byte least significant.  Stated from the spec's words so that the
value computed by `parse_u32` can be compared against it. -/
def leDecode : List Nat → Nat
  | [] => 0
  | b :: rest => b + 256 * leDecode rest

/-- Relational presentation of a single `receive` call: one constructor
per control path of the source (including the panicking paths).  Used to
state determinism of the parser as a property of its transition
relation. -/
inductive RStep : Parser → Nat → Option (Option Command × Parser) → Prop where
  | loading_escape (p : Parser) (h : p.state = State.Loading) :
      RStep p 0xFC (some (none, { p with state := State.Escape }))
  | loading_load (p : Parser) (ch : Nat) (h : p.state = State.Loading) (hch : ch ≠ 0xFC) :
      RStep p ch (some (none, p.load_char ch))
  | escape_literal (p : Parser) (h : p.state = State.Escape) :
      RStep p 0xFC (some (none, Parser.load_char { p with state := State.Loading } 0xFC))
  | escape_ping (p : Parser) (h : p.state = State.Escape) :
      RStep p 0x01 (some (some Command.Ping, { p with state := State.Loading, count := 0 }))
  | escape_info (p : Parser) (h : p.state = State.Escape) :
      RStep p 0x03 (some (some Command.Info, { p with state := State.Loading, count := 0 }))
  | escape_reset (p : Parser) (h : p.state = State.Escape) :
      RStep p 0x05 (some (some Command.Reset, { p with state := State.Loading, count := 0 }))
  | escape_erase_short (p : Parser) (h : p.state = State.Escape) (hc : p.count < 4) :
      RStep p 0x06 (some (some Command.BadCommand, { p with state := State.Loading, count := 0 }))
  | escape_erase (p : Parser) (addr : Nat) (h : p.state = State.Escape) (hc : 4 ≤ p.count)
      (hp : (sliceRange p.buffer (p.count - 4) (p.count - 1)).bind parse_u32 = some addr) :
      RStep p 0x06 (some (some (Command.ErasePage addr), { p with state := State.Loading, count := 0 }))
  | escape_erase_panic (p : Parser) (h : p.state = State.Escape) (hc : 4 ≤ p.count)
      (hp : (sliceRange p.buffer (p.count - 4) (p.count - 1)).bind parse_u32 = none) :
      RStep p 0x06 none
  | escape_write_short (p : Parser) (h : p.state = State.Escape) (hc : p.count < 516) :
      RStep p 0x07 (some (some Command.BadCommand, { p with state := State.Loading, count := 0 }))
  | escape_write (p : Parser) (addr : Nat) (data : List Nat) (h : p.state = State.Escape)
      (hc : 516 ≤ p.count)
      (hp : (sliceRange p.buffer (p.count - 516) (p.count - 516 + 4)).bind parse_u32 = some addr)
      (hd : sliceRange p.buffer (p.count - 516 + 4) (p.count - 516 + 516) = some data) :
      RStep p 0x07 (some (some (Command.WritePage addr data), { p with state := State.Loading, count := 0 }))
  | escape_write_panic_addr (p : Parser) (h : p.state = State.Escape) (hc : 516 ≤ p.count)
      (hp : (sliceRange p.buffer (p.count - 516) (p.count - 516 + 4)).bind parse_u32 = none) :
      RStep p 0x07 none
  | escape_write_panic_data (p : Parser) (addr : Nat) (h : p.state = State.Escape)
      (hc : 516 ≤ p.count)
      (hp : (sliceRange p.buffer (p.count - 516) (p.count - 516 + 4)).bind parse_u32 = some addr)
      (hd : sliceRange p.buffer (p.count - 516 + 4) (p.count - 516 + 516) = none) :
      RStep p 0x07 none
  | escape_other (p : Parser) (ch : Nat) (h : p.state = State.Escape) (h1 : ch ≠ 0xFC)
      (h2 : ch ≠ 0x01) (h3 : ch ≠ 0x03) (h5 : ch ≠ 0x05) (h6 : ch ≠ 0x06) (h7 : ch ≠ 0x07) :
      RStep p ch (some (none, { p with state := State.Loading }))

/-- Relational presentation of feeding a whole byte sequence, chaining
`RStep`; `none` propagates a panic of any single call. -/
inductive RSeq : Parser → List Nat → Option (List (Option Command) × Parser) → Prop where
  | nil (p : Parser) : RSeq p [] (some ([], p))
  | head_panic (p : Parser) (ch : Nat) (rest : List Nat) (h : RStep p ch none) :
      RSeq p (ch :: rest) none
  | step (p : Parser) (ch : Nat) (rest : List Nat) (o : Option Command) (p' : Parser)
      (os : List (Option Command)) (pf : Parser) (h : RStep p ch (some (o, p')))
      (hrest : RSeq p' rest (some (os, pf))) :
      RSeq p (ch :: rest) (some (o :: os, pf))
  | tail_panic (p : Parser) (ch : Nat) (rest : List Nat) (o : Option Command) (p' : Parser)
      (h : RStep p ch (some (o, p'))) (hrest : RSeq p' rest none) :
      RSeq p (ch :: rest) none

end Tockloader

set_option maxRecDepth 10000

namespace Tockloader

theorem he_lit (p : Parser) :
    p.handle_escape 0xFC =
      some (none, Parser.load_char { p with state := State.Loading } 0xFC) := rfl

theorem he_ping (p : Parser) :
    p.handle_escape 0x01 =
      some (some Command.Ping, { p with state := State.Loading, count := 0 }) := rfl

theorem he_info (p : Parser) :
    p.handle_escape 0x03 =
      some (some Command.Info, { p with state := State.Loading, count := 0 }) := rfl

theorem he_reset (p : Parser) :
    p.handle_escape 0x05 =
      some (some Command.Reset, { p with state := State.Loading, count := 0 }) := rfl

theorem he_erase (p : Parser) :
    p.handle_escape 0x06 =
      ((if 4 ≤ p.count then
          match (sliceRange p.buffer (p.count - 4) (p.count - 1)).bind parse_u32 with
          | some addr => some (some (Command.ErasePage addr), { p with state := State.Loading })
          | none => none
        else some (some Command.BadCommand, { p with state := State.Loading })).map
        (fun r => (r.1, if r.1.isSome then { r.2 with count := 0 } else r.2))) := rfl

theorem he_write (p : Parser) :
    p.handle_escape 0x07 =
      ((if 516 ≤ p.count then
          match (sliceRange p.buffer (p.count - 516) (p.count - 516 + 4)).bind parse_u32 with
          | some addr =>
            match sliceRange p.buffer (p.count - 516 + 4) (p.count - 516 + 516) with
            | some data => some (some (Command.WritePage addr data), { p with state := State.Loading })
            | none => none
          | none => none
        else some (some Command.BadCommand, { p with state := State.Loading })).map
        (fun r => (r.1, if r.1.isSome then { r.2 with count := 0 } else r.2))) := rfl

theorem he_other (p : Parser) (ch : Nat) (h1 : ch ≠ 0xFC) (h2 : ch ≠ 0x01)
    (h3 : ch ≠ 0x03) (h5 : ch ≠ 0x05) (h6 : ch ≠ 0x06) (h7 : ch ≠ 0x07) :
    p.handle_escape ch = some (none, { p with state := State.Loading }) := by
  unfold Parser.handle_escape
  simp only [if_neg h1, if_neg h2, if_neg h3, if_neg h5, if_neg h6, if_neg h7]
  rfl

theorem recv_loading_fc (p : Parser) (h : p.state = State.Loading) :
    p.receive 0xFC = some (none, { p with state := State.Escape }) := by
  unfold Parser.receive Parser.handle_loading
  rw [h]
  rfl

theorem recv_loading (p : Parser) (ch : Nat) (h : p.state = State.Loading)
    (hch : ch ≠ 0xFC) :
    p.receive ch = some (none, p.load_char ch) := by
  unfold Parser.receive Parser.handle_loading
  rw [h]
  simp only [if_neg hch]

theorem recv_escape (p : Parser) (ch : Nat) (h : p.state = State.Escape) :
    p.receive ch = p.handle_escape ch := by
  unfold Parser.receive
  rw [h]

theorem parse_u32_short (l : List Nat) (h : l.length ≤ 3) : parse_u32 l = none := by
  unfold parse_u32
  rw [List.get?_eq_none.mpr (by omega)]
  rfl

theorem parse_u32_quad (b0 b1 b2 b3 : Nat) (h0 : b0 < 256) (h1 : b1 < 256)
    (h2 : b2 < 256) (h3 : b3 < 256) :
    parse_u32 [b0, b1, b2, b3] =
      some (b0 + 2 ^ 8 * b1 + 2 ^ 16 * b2 + 2 ^ 24 * b3) := by
  unfold parse_u32
  simp only [List.get?, Option.some_bind, Nat.shiftLeft_eq]
  norm_num
  omega

end Tockloader

namespace Tockloader

theorem load_char_state (p : Parser) (ch : Nat) : (p.load_char ch).state = p.state := by
  unfold Parser.load_char; split <;> rfl

theorem handle_escape_cases (p : Parser) (ch : Nat) (r : Option Command × Parser)
    (h : p.handle_escape ch = some r) :
    r.2.state = State.Loading ∧
    ((r.1 = none ∧ r.2 = Parser.load_char { p with state := State.Loading } ch) ∨
     (r.1.isSome = true ∧ r.2.buffer = p.buffer ∧ r.2.count = 0) ∨
     (r.1 = none ∧ r.2 = { p with state := State.Loading })) := by
  by_cases h1 : ch = 0xFC
  · subst h1; rw [he_lit] at h; injection h with h; subst h
    exact ⟨load_char_state _ _, Or.inl ⟨rfl, rfl⟩⟩
  by_cases h2 : ch = 0x01
  · subst h2; rw [he_ping] at h; injection h with h; subst h
    exact ⟨rfl, Or.inr (Or.inl ⟨rfl, rfl, rfl⟩)⟩
  by_cases h3 : ch = 0x03
  · subst h3; rw [he_info] at h; injection h with h; subst h
    exact ⟨rfl, Or.inr (Or.inl ⟨rfl, rfl, rfl⟩)⟩
  by_cases h5 : ch = 0x05
  · subst h5; rw [he_reset] at h; injection h with h; subst h
    exact ⟨rfl, Or.inr (Or.inl ⟨rfl, rfl, rfl⟩)⟩
  by_cases h6 : ch = 0x06
  · subst h6; rw [he_erase, Option.map_eq_some'] at h
    obtain ⟨a, ha, hf⟩ := h
    have hshape : a.1.isSome = true ∧ a.2 = { p with state := State.Loading } := by
      split at ha
      · split at ha
        · injection ha with ha; subst ha; exact ⟨rfl, rfl⟩
        · exact absurd ha (by simp)
      · injection ha with ha; subst ha; exact ⟨rfl, rfl⟩
    rw [hshape.1] at hf
    simp only [if_true] at hf
    subst hf
    exact ⟨by simp [hshape.2], Or.inr (Or.inl ⟨hshape.1, by simp [hshape.2], rfl⟩)⟩
  by_cases h7 : ch = 0x07
  · subst h7; rw [he_write, Option.map_eq_some'] at h
    obtain ⟨a, ha, hf⟩ := h
    have hshape : a.1.isSome = true ∧ a.2 = { p with state := State.Loading } := by
      split at ha
      · split at ha
        · split at ha
          · injection ha with ha; subst ha; exact ⟨rfl, rfl⟩
          · exact absurd ha (by simp)
        · exact absurd ha (by simp)
      · injection ha with ha; subst ha; exact ⟨rfl, rfl⟩
    rw [hshape.1] at hf
    simp only [if_true] at hf
    subst hf
    exact ⟨by simp [hshape.2], Or.inr (Or.inl ⟨hshape.1, by simp [hshape.2], rfl⟩)⟩
  · rw [he_other p ch h1 h2 h3 h5 h6 h7] at h; injection h with h; subst h
    exact ⟨rfl, Or.inr (Or.inr ⟨rfl, rfl⟩)⟩

theorem wf_new : Parser.new.Wf := ⟨by simp [Parser.new], by simp [Parser.new]⟩

theorem load_char_wf (p : Parser) (ch : Nat) (h : p.Wf) : (p.load_char ch).Wf := by
  obtain ⟨hl, hc⟩ := h
  unfold Parser.load_char
  split
  · refine ⟨by simp [hl], ?_⟩
    rename_i hlt
    simp only
    omega
  · exact ⟨hl, hc⟩

theorem receive_wf (p : Parser) (ch : Nat) (r : Option Command × Parser)
    (h : p.Wf) (hr : p.receive ch = some r) : r.2.Wf := by
  unfold Parser.receive at hr
  cases hs : p.state
  · rw [hs] at hr
    injection hr with hr
    unfold Parser.handle_loading at hr
    split at hr
    · rw [← hr]; exact ⟨h.1, h.2⟩
    · rw [← hr]; exact load_char_wf p ch h
  · rw [hs] at hr
    rcases (handle_escape_cases p ch r hr).2 with ⟨-, h2⟩ | ⟨-, hbuf, hcnt⟩ | ⟨-, h2⟩
    · rw [h2]; exact load_char_wf _ ch ⟨h.1, h.2⟩
    · exact ⟨by rw [hbuf]; exact h.1, by rw [hcnt]; omega⟩
    · rw [h2]; exact ⟨h.1, h.2⟩

theorem receiveSeq_wf (s : List Nat) (p pf : Parser) (outs : List (Option Command))
    (h : p.Wf) (hr : p.receiveSeq s = some (outs, pf)) : pf.Wf := by
  induction s generalizing p outs pf with
  | nil =>
    unfold Parser.receiveSeq at hr
    injection hr with hr
    rw [show pf = p from (congrArg Prod.snd hr).symm]
    exact h
  | cons ch rest ih =>
    unfold Parser.receiveSeq at hr
    rcases hrc : p.receive ch with _ | r
    · rw [hrc] at hr; exact absurd hr (by simp)
    · rw [hrc] at hr
      simp only [Option.bind_eq_bind, Option.some_bind] at hr
      rcases hrs : r.2.receiveSeq rest with _ | s2
      · rw [hrs] at hr; exact absurd hr (by simp)
      · rw [hrs] at hr
        simp only [Option.bind_eq_bind, Option.some_bind] at hr
        injection hr with hr
        obtain ⟨os2, pf2⟩ := s2
        rw [show pf = pf2 from (congrArg Prod.snd hr).symm]
        exact ih r.2 pf2 os2 (receive_wf p ch r h hrc) hrs

end Tockloader

namespace Tockloader

/-- Claim C1: the spec says `receive` never aborts: every buffer index and
slice access on every path is in bounds.  The code violates this: on the
ErasePage path (Escape state, byte 0x06, count ≥ 4) the slice
`buffer[count-4..count-1]` has only 3 elements, and `parse_u32` indexes
element 3 of it, which panics.  This theorem evaluates the parser on a
concrete reachable input exhibiting the abort. -/
theorem receive_aborts_on_erase_path :
    Parser.new.receiveSeq [0x00, 0x00, 0x00, 0x00, 0xFC, 0x06] = none := rfl

/-- Claim C2: the spec says 4 buffered bytes then `[0xFC, 0x06]` yield
`Some(ErasePage(addr))` with `addr` little-endian (`EF BE AD DE` giving
`0xDEADBEEF`).  Instead the call panics on the 3-byte slice passed to
`parse_u32`; this theorem evaluates the parser at exactly the spec's
example input and shows the run aborts rather than producing a command. -/
theorem erase_page_example_aborts :
    Parser.new.receiveSeq [0xEF, 0xBE, 0xAD, 0xDE, 0xFC, 0x06] = none := rfl

end Tockloader

namespace Tockloader

/-- Claim C4: in Escape state, byte 0x06 with fewer than 4 buffered bytes,
or byte 0x07 with fewer than 516, yields `Some(BadCommand)`; and after any
call that returns a command (BadCommand included) the count is 0. -/
theorem short_frame_bad_command :
    (∀ p : Parser, p.state = State.Escape → p.count < 4 →
      p.receive 0x06 =
        some (some Command.BadCommand, { p with state := State.Loading, count := 0 })) ∧
    (∀ p : Parser, p.state = State.Escape → p.count < 516 →
      p.receive 0x07 =
        some (some Command.BadCommand, { p with state := State.Loading, count := 0 })) ∧
    (∀ (p : Parser) (ch : Nat) (c : Command) (p' : Parser),
      p.receive ch = some (some c, p') → p'.count = 0) := by
  refine ⟨?_, ?_, ?_⟩
  · intro p hs hc
    rw [recv_escape p _ hs, he_erase, if_neg (by omega)]
    rfl
  · intro p hs hc
    rw [recv_escape p _ hs, he_write, if_neg (by omega)]
    rfl
  · intro p ch c p' hr
    unfold Parser.receive at hr
    cases hs : p.state
    · rw [hs] at hr
      injection hr with hr
      unfold Parser.handle_loading at hr
      split at hr <;> simp at hr
    · rw [hs] at hr
      rcases (handle_escape_cases p ch (some c, p') hr).2 with ⟨h0, -⟩ | ⟨-, -, h0⟩ | ⟨h0, -⟩
      · simp at h0
      · exact h0
      · simp at h0

theorem short_frame_bad_command_witness :
    Parser.receive ⟨State.Escape, List.replicate 520 0, 2⟩ 0x06 =
      some (some Command.BadCommand, ⟨State.Loading, List.replicate 520 0, 0⟩) :=
  short_frame_bad_command.1 ⟨State.Escape, List.replicate 520 0, 2⟩ rfl (by decide)

/-- Claim C5: the count never exceeds the capacity 520 in reachable states;
at capacity, a further byte in Loading state (or a literal 0xFC completed
in Escape state) is silently discarded with no state change or error. -/
theorem buffer_capacity_bound :
    (∀ p : Parser, Reachable p → p.count ≤ 520) ∧
    (∀ (p : Parser) (ch : Nat), p.state = State.Loading → p.buffer.length = 520 →
      p.count = 520 → ch ≠ 0xFC → p.receive ch = some (none, p)) ∧
    (∀ p : Parser, p.state = State.Escape → p.buffer.length = 520 → p.count = 520 →
      p.receive 0xFC = some (none, { p with state := State.Loading })) := by
  refine ⟨?_, ?_, ?_⟩
  · rintro p ⟨s, outs, h⟩
    exact (receiveSeq_wf s Parser.new p outs wf_new h).2
  · intro p ch hs hlen hcnt hch
    rw [recv_loading p ch hs hch]
    unfold Parser.load_char
    rw [if_neg (by omega)]
  · intro p hs hlen hcnt
    rw [recv_escape _ _ hs, he_lit]
    unfold Parser.load_char
    rw [if_neg (by simp only; omega)]

theorem buffer_capacity_bound_witness :
    Parser.receive ⟨State.Loading, List.replicate 520 7, 520⟩ 0x41 =
      some (none, ⟨State.Loading, List.replicate 520 7, 520⟩) :=
  buffer_capacity_bound.2.1 ⟨State.Loading, List.replicate 520 7, 520⟩ 0x41 rfl
    (by simp) rfl (by decide)

/-- Claim C6: from Escape state, any byte whose `receive` call completes
leaves the parser in Loading state, whether or not a command was emitted. -/
theorem escape_always_returns_to_loading :
    ∀ (p : Parser) (ch : Nat) (r : Option Command × Parser),
      p.state = State.Escape → p.receive ch = some r → r.2.state = State.Loading := by
  intro p ch r hs hr
  rw [recv_escape p ch hs] at hr
  exact (handle_escape_cases p ch r hr).1

theorem escape_always_returns_to_loading_witness :
    ((none : Option Command), (⟨State.Loading, List.replicate 520 0, 0⟩ : Parser)).2.state =
      State.Loading :=
  escape_always_returns_to_loading ⟨State.Escape, List.replicate 520 0, 0⟩ 0x02
    (none, ⟨State.Loading, List.replicate 520 0, 0⟩) rfl rfl

/-- Claim C7: an unrecognized escape byte (none of 0xFC, 0x01, 0x03, 0x05,
0x06, 0x07) emits no command and leaves buffer and count untouched: later
bytes append to the existing frame. -/
theorem unrecognized_escape_preserves_buffer :
    ∀ (p : Parser) (ch : Nat), p.state = State.Escape →
      ch ≠ 0xFC → ch ≠ 0x01 → ch ≠ 0x03 → ch ≠ 0x05 → ch ≠ 0x06 → ch ≠ 0x07 →
      p.receive ch = some (none, { p with state := State.Loading }) := by
  intro p ch hs h1 h2 h3 h5 h6 h7
  rw [recv_escape p ch hs]
  exact he_other p ch h1 h2 h3 h5 h6 h7

theorem unrecognized_escape_preserves_buffer_witness :
    Parser.receive ⟨State.Escape, List.replicate 520 9, 3⟩ 0x02 =
      some (none, ⟨State.Loading, List.replicate 520 9, 3⟩) :=
  unrecognized_escape_preserves_buffer ⟨State.Escape, List.replicate 520 9, 3⟩ 0x02 rfl
    (by decide) (by decide) (by decide) (by decide) (by decide) (by decide)

/-- Claim C8: feeding `0xFC 0xFC` in Loading state below capacity appends a
single literal 0xFC at index `count`, bumps the count, emits no command on
either call, and the parser is back in Loading state. -/
theorem double_escape_appends_literal :
    ∀ p : Parser, p.state = State.Loading → p.buffer.length = 520 → p.count < 520 →
      p.receiveSeq [0xFC, 0xFC] =
        some ([none, none],
          { p with buffer := p.buffer.set p.count 0xFC, count := p.count + 1 }) := by
  intro p hs hlen hcnt
  obtain ⟨st, buf, cnt⟩ := p
  simp only at hs hlen hcnt
  subst hs
  have h1 : Parser.receive ⟨State.Loading, buf, cnt⟩ 0xFC =
      some (none, ⟨State.Escape, buf, cnt⟩) := rfl
  have h2 : Parser.receive ⟨State.Escape, buf, cnt⟩ 0xFC =
      some (none, ⟨State.Loading, buf.set cnt 0xFC, cnt + 1⟩) := by
    rw [recv_escape _ _ rfl, he_lit]
    unfold Parser.load_char
    rw [if_pos (by simp only; omega)]
  simp only [Parser.receiveSeq, h1, h2, Option.bind_eq_bind, Option.some_bind]

theorem double_escape_appends_literal_witness :
    Parser.new.receiveSeq [0xFC, 0xFC] =
      some ([none, none], ⟨State.Loading, (List.replicate 520 0).set 0 0xFC, 1⟩) :=
  double_escape_appends_literal Parser.new rfl (by simp [Parser.new]) (by decide)

/-- Claim C9: a fresh parser maps `[0xFC, 0x01]` to `None` then `Some(Ping)`
and `[0xFC, 0x03]` to `None` then `Some(Info)`; byte 0x05 in Escape state
yields `Some(Reset)`; none of the three carries a payload. -/
theorem ping_info_reset_commands :
    Parser.new.receiveSeq [0xFC, 0x01] = some ([none, some Command.Ping], Parser.new) ∧
    Parser.new.receiveSeq [0xFC, 0x03] = some ([none, some Command.Info], Parser.new) ∧
    (∀ p : Parser, p.state = State.Escape →
      p.receive 0x05 = some (some Command.Reset, { p with state := State.Loading, count := 0 })) := by
  refine ⟨rfl, rfl, ?_⟩
  intro p hs
  rw [recv_escape _ _ hs, he_reset]

theorem ping_info_reset_commands_witness :
    Parser.receive ⟨State.Escape, List.replicate 520 0, 5⟩ 0x05 =
      some (some Command.Reset, ⟨State.Loading, List.replicate 520 0, 0⟩) :=
  ping_info_reset_commands.2.2 ⟨State.Escape, List.replicate 520 0, 5⟩ rfl

end Tockloader

namespace Tockloader

theorem sliceRange_eq (buf : List Nat) (a b : Nat) (hab : a ≤ b) (hb : b ≤ buf.length) :
    sliceRange buf a b = some ((buf.drop a).take (b - a)) := by
  unfold sliceRange
  rw [if_pos ⟨hab, hb⟩]

theorem writeList_cons (b : Nat) (buf : List Nat) (i : Nat) (xs : List Nat) :
    writeList (b :: buf) (i + 1) xs = b :: writeList buf i xs := by
  induction xs generalizing buf i with
  | nil => rfl
  | cons x xs ih =>
    unfold writeList
    rw [show (b :: buf).set (i + 1) x = b :: buf.set i x from rfl, ih]

theorem writeList_zero (xs buf : List Nat) (h : xs.length ≤ buf.length) :
    writeList buf 0 xs = xs ++ buf.drop xs.length := by
  induction xs generalizing buf with
  | nil => simp [writeList]
  | cons x xs ih =>
    cases buf with
    | nil => simp at h
    | cons b bs =>
      unfold writeList
      rw [show (b :: bs).set 0 x = x :: bs from rfl, writeList_cons,
        ih bs (by simp at h; omega)]
      rfl

theorem take_four_eq (l : List Nat) (s b0 b1 b2 b3 : Nat)
    (h0 : l.get? s = some b0) (h1 : l.get? (s + 1) = some b1)
    (h2 : l.get? (s + 2) = some b2) (h3 : l.get? (s + 3) = some b3) :
    (l.drop s).take 4 = [b0, b1, b2, b3] := by
  apply List.ext_get?
  intro n
  match n with
  | 0 =>
    rw [List.get?_eq_getElem?, List.getElem?_take_of_lt (by omega), List.getElem?_drop]
    rw [List.get?_eq_getElem?] at h0
    simpa using h0
  | 1 =>
    rw [List.get?_eq_getElem?, List.getElem?_take_of_lt (by omega), List.getElem?_drop]
    rw [List.get?_eq_getElem?] at h1
    exact h1
  | 2 =>
    rw [List.get?_eq_getElem?, List.getElem?_take_of_lt (by omega), List.getElem?_drop]
    rw [List.get?_eq_getElem?] at h2
    exact h2
  | 3 =>
    rw [List.get?_eq_getElem?, List.getElem?_take_of_lt (by omega), List.getElem?_drop]
    rw [List.get?_eq_getElem?] at h3
    exact h3
  | (n + 4) =>
    rw [List.get?_eq_none.mpr (by rw [List.length_take]; omega),
      List.get?_eq_none.mpr (by simp)]

theorem he_write_full (p : Parser) (b0 b1 b2 b3 : Nat)
    (hc1 : 516 ≤ p.count) (hc2 : p.count ≤ p.buffer.length)
    (hb0 : p.buffer.get? (p.count - 516) = some b0)
    (hb1 : p.buffer.get? (p.count - 515) = some b1)
    (hb2 : p.buffer.get? (p.count - 514) = some b2)
    (hb3 : p.buffer.get? (p.count - 513) = some b3)
    (h0 : b0 < 256) (h1 : b1 < 256) (h2 : b2 < 256) (h3 : b3 < 256) :
    p.handle_escape 0x07 =
      some (some (Command.WritePage (b0 + 2 ^ 8 * b1 + 2 ^ 16 * b2 + 2 ^ 24 * b3)
          ((p.buffer.drop (p.count - 512)).take 512)),
        { p with state := State.Loading, count := 0 }) := by
  rw [he_write, if_pos hc1]
  have hsl : sliceRange p.buffer (p.count - 516) (p.count - 516 + 4) =
      some [b0, b1, b2, b3] := by
    rw [sliceRange_eq _ _ _ (by omega) (by omega)]
    rw [show p.count - 516 + 4 - (p.count - 516) = 4 from by omega]
    rw [take_four_eq p.buffer (p.count - 516) b0 b1 b2 b3 hb0
      (by rw [show p.count - 516 + 1 = p.count - 515 from by omega]; exact hb1)
      (by rw [show p.count - 516 + 2 = p.count - 514 from by omega]; exact hb2)
      (by rw [show p.count - 516 + 3 = p.count - 513 from by omega]; exact hb3)]
  rw [hsl, Option.some_bind, parse_u32_quad b0 b1 b2 b3 h0 h1 h2 h3]
  have hsl2 : sliceRange p.buffer (p.count - 516 + 4) (p.count - 516 + 516) =
      some ((p.buffer.drop (p.count - 512)).take 512) := by
    rw [sliceRange_eq _ _ _ (by omega) (by omega)]
    rw [show p.count - 516 + 4 = p.count - 512 from by omega,
      show p.count - 516 + 516 - (p.count - 512) = 512 from by omega]
  rw [hsl2]
  rfl

end Tockloader

namespace Tockloader

theorem receiveSeq_cons (p : Parser) (x : Nat) (xs : List Nat) :
    p.receiveSeq (x :: xs) =
      (p.receive x).bind fun r =>
        (r.2.receiveSeq xs).bind fun s => some (r.1 :: s.1, s.2) := rfl

theorem receiveSeq_append (p : Parser) (xs ys : List Nat) :
    p.receiveSeq (xs ++ ys) =
      (p.receiveSeq xs).bind fun r =>
        (r.2.receiveSeq ys).bind fun s => some (r.1 ++ s.1, s.2) := by
  induction xs generalizing p with
  | nil =>
    simp [Parser.receiveSeq]
  | cons x xs ih =>
    rw [List.cons_append, receiveSeq_cons, receiveSeq_cons]
    cases hr : p.receive x with
    | none => simp
    | some r =>
      simp only [Option.bind_eq_bind, Option.some_bind]
      rw [ih r.2]
      cases hrs : r.2.receiveSeq xs with
      | none => simp
      | some s =>
        simp only [Option.some_bind]
        cases hrt : s.2.receiveSeq ys with
        | none => simp
        | some t => simp

theorem receiveSeq_escape_load (xs : List Nat) (p : Parser)
    (hs : p.state = State.Loading) (hlen : p.buffer.length = 520)
    (hcap : p.count + xs.length ≤ 520) :
    p.receiveSeq (escapeBytes xs) =
      some (List.replicate (escapeBytes xs).length none,
        { p with buffer := writeList p.buffer p.count xs,
                 count := p.count + xs.length }) := by
  induction xs generalizing p with
  | nil =>
    obtain ⟨st, buf, cnt⟩ := p
    simp only at hs
    subst hs
    simp [escapeBytes, writeList, Parser.receiveSeq]
  | cons x xs ih =>
    obtain ⟨st, buf, cnt⟩ := p
    simp only at hs hlen hcap
    simp only [List.length_cons] at hcap
    subst hs
    have hlt : cnt < buf.length := by simp [hlen]; omega
    by_cases hx : x = 0xFC
    · subst hx
      rw [show escapeBytes (0xFC :: xs) = 0xFC :: 0xFC :: escapeBytes xs from by
        simp [escapeBytes]]
      have h1 : Parser.receive ⟨State.Loading, buf, cnt⟩ 0xFC =
          some (none, ⟨State.Escape, buf, cnt⟩) := rfl
      have h2 : Parser.receive ⟨State.Escape, buf, cnt⟩ 0xFC =
          some (none, ⟨State.Loading, buf.set cnt 0xFC, cnt + 1⟩) := by
        rw [recv_escape _ _ rfl, he_lit]
        unfold Parser.load_char
        rw [if_pos (by simpa using hlt)]
      simp only [Parser.receiveSeq, h1, h2, Option.bind_eq_bind, Option.some_bind]
      rw [ih ⟨State.Loading, buf.set cnt 0xFC, cnt + 1⟩ rfl (by simpa using hlen)
        (by simp; omega)]
      simp only [Option.some_bind]
      rw [show writeList (buf.set cnt 0xFC) (cnt + 1) xs = writeList buf cnt (0xFC :: xs)
        from rfl]
      rw [show cnt + 1 + xs.length = cnt + (xs.length + 1) from by omega]
      simp [List.replicate_succ]
    · rw [show escapeBytes (x :: xs) = x :: escapeBytes xs from by
        simp [escapeBytes, hx]]
      have h1 : Parser.receive ⟨State.Loading, buf, cnt⟩ x =
          some (none, ⟨State.Loading, buf.set cnt x, cnt + 1⟩) := by
        rw [recv_loading _ _ rfl hx]
        unfold Parser.load_char
        rw [if_pos (by simpa using hlt)]
      simp only [Parser.receiveSeq, h1, Option.bind_eq_bind, Option.some_bind]
      rw [ih ⟨State.Loading, buf.set cnt x, cnt + 1⟩ rfl (by simpa using hlen)
        (by simp; omega)]
      simp only [Option.some_bind]
      rw [show writeList (buf.set cnt x) (cnt + 1) xs = writeList buf cnt (x :: xs)
        from rfl]
      rw [show cnt + 1 + xs.length = cnt + (xs.length + 1) from by omega]
      simp [List.replicate_succ]

end Tockloader

namespace Tockloader

/-- Claim C3: whenever byte 0x07 arrives in Escape state with at least 516
buffered bytes, the emitted command is `WritePage` whose address is the
little-endian decode of the first 4 of the last 516 buffered bytes and
whose payload is the remaining 512 in arrival order; consequently a fresh
parser fed 4 address bytes and 512 data bytes (escaped per the doubling
rule) followed by `[0xFC, 0x07]` answers `Some(WritePage(addr, data))` on
the final call, with `addr` the little-endian decode of the 4 address
bytes and `data` the original 512 bytes. -/
theorem write_page_correct :
    (∀ (p : Parser) (b0 b1 b2 b3 : Nat), p.state = State.Escape →
      516 ≤ p.count → p.count ≤ p.buffer.length →
      p.buffer.get? (p.count - 516) = some b0 →
      p.buffer.get? (p.count - 515) = some b1 →
      p.buffer.get? (p.count - 514) = some b2 →
      p.buffer.get? (p.count - 513) = some b3 →
      b0 < 256 → b1 < 256 → b2 < 256 → b3 < 256 →
      p.receive 0x07 =
        some (some (Command.WritePage (b0 + 2 ^ 8 * b1 + 2 ^ 16 * b2 + 2 ^ 24 * b3)
            ((p.buffer.drop (p.count - 512)).take 512)),
          { p with state := State.Loading, count := 0 })) ∧
    (∀ bytes : List Nat, bytes.length = 516 → (∀ b ∈ bytes, b < 256) →
      Parser.new.receiveSeq (escapeBytes bytes ++ [0xFC, 0x07]) =
        some (List.replicate ((escapeBytes bytes).length + 1) none ++
            [some (Command.WritePage (leDecode (bytes.take 4)) (bytes.drop 4))],
          ⟨State.Loading, bytes ++ List.replicate 4 0, 0⟩)) := by
  constructor
  · intro p b0 b1 b2 b3 hs hc1 hc2 hb0 hb1 hb2 hb3 h0 h1 h2 h3
    rw [recv_escape _ _ hs]
    exact he_write_full p b0 b1 b2 b3 hc1 hc2 hb0 hb1 hb2 hb3 h0 h1 h2 h3
  · intro bytes hlen hbnd
    rcases bytes with _ | ⟨b0, bytes⟩
    · simp at hlen
    rcases bytes with _ | ⟨b1, bytes⟩
    · simp at hlen
    rcases bytes with _ | ⟨b2, bytes⟩
    · simp at hlen
    rcases bytes with _ | ⟨b3, rest⟩
    · simp at hlen
    simp only [List.length_cons] at hlen
    have hrl : rest.length = 512 := by omega
    rw [receiveSeq_append]
    rw [receiveSeq_escape_load (b0 :: b1 :: b2 :: b3 :: rest) Parser.new rfl
      (by simp [Parser.new]) (by simp [Parser.new]; omega)]
    simp only [Option.bind_eq_bind, Option.some_bind]
    have hbuf : writeList Parser.new.buffer Parser.new.count (b0 :: b1 :: b2 :: b3 :: rest) =
        (b0 :: b1 :: b2 :: b3 :: rest) ++ List.replicate 4 0 := by
      rw [show Parser.new.buffer = List.replicate 520 0 from rfl,
        show Parser.new.count = 0 from rfl]
      rw [writeList_zero _ _ (by simp; omega)]
      rw [List.drop_replicate]
      rw [show 520 - (b0 :: b1 :: b2 :: b3 :: rest).length = 4 from by
        simp only [List.length_cons]; omega]
    have hcount : Parser.new.count + (b0 :: b1 :: b2 :: b3 :: rest).length = 516 := by
      simp only [Parser.new, List.length_cons]
      omega
    have htail : ∀ q : Parser, q.state = State.Loading →
        q.buffer = (b0 :: b1 :: b2 :: b3 :: rest) ++ List.replicate 4 0 → q.count = 516 →
        q.receiveSeq [0xFC, 0x07] =
          some ([none, some (Command.WritePage
              (b0 + 2 ^ 8 * b1 + 2 ^ 16 * b2 + 2 ^ 24 * b3) rest)],
            ⟨State.Loading, (b0 :: b1 :: b2 :: b3 :: rest) ++ List.replicate 4 0, 0⟩) := by
      intro q hqs hqb hqc
      obtain ⟨qs, qb, qc⟩ := q
      simp only at hqs hqb hqc
      subst hqs
      subst hqb
      subst hqc
      have h2 : Parser.receive
          ⟨State.Escape, (b0 :: b1 :: b2 :: b3 :: rest) ++ List.replicate 4 0, 516⟩ 0x07 =
          some (some (Command.WritePage (b0 + 2 ^ 8 * b1 + 2 ^ 16 * b2 + 2 ^ 24 * b3) rest),
            ⟨State.Loading, (b0 :: b1 :: b2 :: b3 :: rest) ++ List.replicate 4 0, 0⟩) := by
        rw [recv_escape _ _ rfl]
        have hw := he_write_full
          ⟨State.Escape, (b0 :: b1 :: b2 :: b3 :: rest) ++ List.replicate 4 0, 516⟩
          b0 b1 b2 b3 (by norm_num) (by simp; omega)
          (by norm_num [List.get?]) (by norm_num [List.get?])
          (by norm_num [List.get?]) (by norm_num [List.get?])
          (hbnd b0 (by simp)) (hbnd b1 (by simp)) (hbnd b2 (by simp)) (hbnd b3 (by simp))
        rw [hw]
        dsimp only
        rw [show (516 - 512 : Nat) = 4 from rfl]
        rw [show (List.drop 4 ((b0 :: b1 :: b2 :: b3 :: rest) ++ List.replicate 4 0) : List Nat) =
          rest ++ List.replicate 4 0 from rfl]
        rw [List.take_left' hrl]
      rw [receiveSeq_cons]
      rw [show Parser.receive
          ⟨State.Loading, (b0 :: b1 :: b2 :: b3 :: rest) ++ List.replicate 4 0, 516⟩ 0xFC =
          some (none, ⟨State.Escape, (b0 :: b1 :: b2 :: b3 :: rest) ++ List.replicate 4 0, 516⟩) from rfl]
      rw [Option.some_bind, receiveSeq_cons, h2, Option.some_bind]
      rfl
    rw [htail _ rfl hbuf hcount]
    have hle : leDecode ((b0 :: b1 :: b2 :: b3 :: rest).take 4) =
        b0 + 2 ^ 8 * b1 + 2 ^ 16 * b2 + 2 ^ 24 * b3 := by
      rw [show (b0 :: b1 :: b2 :: b3 :: rest).take 4 = [b0, b1, b2, b3] from rfl]
      simp [leDecode]
      ring
    rw [hle, show (b0 :: b1 :: b2 :: b3 :: rest).drop 4 = rest from rfl]
    rw [Option.some_bind]
    dsimp only
    rw [List.replicate_succ' (escapeBytes (b0 :: b1 :: b2 :: b3 :: rest)).length
      (none : Option Command), List.append_assoc]
    rfl

theorem write_page_correct_witness :
    Parser.receive ⟨State.Escape, List.replicate 520 0, 516⟩ 0x07 =
      some (some (Command.WritePage (0 + 2 ^ 8 * 0 + 2 ^ 16 * 0 + 2 ^ 24 * 0)
          (((List.replicate 520 0).drop (516 - 512)).take 512)),
        ⟨State.Loading, List.replicate 520 0, 0⟩) :=
  write_page_correct.1 ⟨State.Escape, List.replicate 520 0, 516⟩ 0 0 0 0 rfl
    (by decide) (by simp) rfl rfl rfl rfl
    (by decide) (by decide) (by decide) (by decide)

end Tockloader

namespace Tockloader

theorem rstep_eq_receive (p : Parser) (ch : Nat) (r : Option (Option Command × Parser))
    (h : RStep p ch r) : p.receive ch = r := by
  cases h with
  | loading_escape hs => exact recv_loading_fc p hs
  | loading_load c hs hch => exact recv_loading p ch hs hch
  | escape_literal hs => rw [recv_escape _ _ hs, he_lit]
  | escape_ping hs => rw [recv_escape _ _ hs, he_ping]
  | escape_info hs => rw [recv_escape _ _ hs, he_info]
  | escape_reset hs => rw [recv_escape _ _ hs, he_reset]
  | escape_erase_short hs hc =>
    rw [recv_escape _ _ hs, he_erase, if_neg (by omega)]
    rfl
  | escape_erase addr hs hc hp =>
    rw [recv_escape _ _ hs, he_erase, if_pos hc, hp]
    rfl
  | escape_erase_panic hs hc hp =>
    rw [recv_escape _ _ hs, he_erase, if_pos hc, hp]
    rfl
  | escape_write_short hs hc =>
    rw [recv_escape _ _ hs, he_write, if_neg (by omega)]
    rfl
  | escape_write addr data hs hc hp hd =>
    rw [recv_escape _ _ hs, he_write, if_pos hc, hp, hd]
    rfl
  | escape_write_panic_addr hs hc hp =>
    rw [recv_escape _ _ hs, he_write, if_pos hc, hp]
    rfl
  | escape_write_panic_data addr hs hc hp hd =>
    rw [recv_escape _ _ hs, he_write, if_pos hc, hp, hd]
    rfl
  | escape_other c hs h1 h2 h3 h5 h6 h7 =>
    rw [recv_escape _ _ hs]
    exact he_other p ch h1 h2 h3 h5 h6 h7

theorem rstep_total (p : Parser) (ch : Nat) : RStep p ch (p.receive ch) := by
  cases hs : p.state with
  | Loading =>
    by_cases hch : ch = 0xFC
    · subst hch
      rw [recv_loading_fc p hs]
      exact RStep.loading_escape p hs
    · rw [recv_loading p ch hs hch]
      exact RStep.loading_load p ch hs hch
  | Escape =>
    by_cases h1 : ch = 0xFC
    · subst h1
      rw [recv_escape _ _ hs, he_lit]
      exact RStep.escape_literal p hs
    by_cases h2 : ch = 0x01
    · subst h2
      rw [recv_escape _ _ hs, he_ping]
      exact RStep.escape_ping p hs
    by_cases h3 : ch = 0x03
    · subst h3
      rw [recv_escape _ _ hs, he_info]
      exact RStep.escape_info p hs
    by_cases h5 : ch = 0x05
    · subst h5
      rw [recv_escape _ _ hs, he_reset]
      exact RStep.escape_reset p hs
    by_cases h6 : ch = 0x06
    · subst h6
      rw [recv_escape _ _ hs, he_erase]
      by_cases hc : 4 ≤ p.count
      · rw [if_pos hc]
        rcases hm : (sliceRange p.buffer (p.count - 4) (p.count - 1)).bind parse_u32 with _ | addr
        · exact RStep.escape_erase_panic p hs hc hm
        · exact RStep.escape_erase p addr hs hc hm
      · rw [if_neg hc]
        exact RStep.escape_erase_short p hs (by omega)
    by_cases h7 : ch = 0x07
    · subst h7
      rw [recv_escape _ _ hs, he_write]
      by_cases hc : 516 ≤ p.count
      · rw [if_pos hc]
        rcases hm : (sliceRange p.buffer (p.count - 516) (p.count - 516 + 4)).bind parse_u32 with _ | addr
        · exact RStep.escape_write_panic_addr p hs hc hm
        · rcases hd : sliceRange p.buffer (p.count - 516 + 4) (p.count - 516 + 516) with _ | data
          · exact RStep.escape_write_panic_data p addr hs hc hm hd
          · exact RStep.escape_write p addr data hs hc hm hd
      · rw [if_neg hc]
        exact RStep.escape_write_short p hs (by omega)
    · rw [recv_escape _ _ hs, he_other p ch h1 h2 h3 h5 h6 h7]
      exact RStep.escape_other p ch hs h1 h2 h3 h5 h6 h7

theorem rseq_eq_receiveSeq (p : Parser) (s : List Nat)
    (r : Option (List (Option Command) × Parser)) (h : RSeq p s r) :
    p.receiveSeq s = r := by
  induction h with
  | nil q => rfl
  | head_panic q ch rest hstep =>
    rw [receiveSeq_cons, rstep_eq_receive q ch none hstep]
    rfl
  | step q ch rest o q' os qf hstep hrest ih =>
    rw [receiveSeq_cons, rstep_eq_receive q ch _ hstep, Option.some_bind]
    dsimp only
    rw [ih, Option.some_bind]
  | tail_panic q ch rest o q' hstep hrest ih =>
    rw [receiveSeq_cons, rstep_eq_receive q ch _ hstep, Option.some_bind]
    dsimp only
    rw [ih]
    rfl

theorem rseq_total (p : Parser) (s : List Nat) : RSeq p s (p.receiveSeq s) := by
  induction s generalizing p with
  | nil => exact RSeq.nil p
  | cons ch rest ih =>
    have hstep := rstep_total p ch
    rcases hr : p.receive ch with _ | r
    · rw [hr] at hstep
      rw [show p.receiveSeq (ch :: rest) = none from by
        rw [receiveSeq_cons, hr]; rfl]
      exact RSeq.head_panic p ch rest hstep
    · obtain ⟨o, p'⟩ := r
      rw [hr] at hstep
      have hrest := ih p'
      rcases hrs : p'.receiveSeq rest with _ | s2
      · rw [hrs] at hrest
        rw [show p.receiveSeq (ch :: rest) = none from by
          rw [receiveSeq_cons, hr, Option.some_bind]
          dsimp only
          rw [hrs]
          rfl]
        exact RSeq.tail_panic p ch rest o p' hstep hrest
      · obtain ⟨os, pf⟩ := s2
        rw [hrs] at hrest
        rw [show p.receiveSeq (ch :: rest) = some (o :: os, pf) from by
          rw [receiveSeq_cons, hr, Option.some_bind]
          dsimp only
          rw [hrs]
          rfl]
        exact RSeq.step p ch rest o p' os pf hstep hrest

end Tockloader

namespace Tockloader

/-- Claim C10: `receive` is deterministic.  Any two runs of the transition
relation from a freshly constructed parser over the same byte sequence
produce the same outcome (same sequence of `Option Command` results and
same final parser state, mode, count and buffer — or the same panic), and
that outcome is exactly the one computed by `receiveSeq`: the output is a
function of the construction and the input history alone. -/
theorem receive_deterministic (s : List Nat)
    (r₁ r₂ : Option (List (Option Command) × Parser))
    (h₁ : RSeq Parser.new s r₁) (h₂ : RSeq Parser.new s r₂) :
    r₁ = r₂ ∧ r₁ = Parser.new.receiveSeq s := by
  have e₁ := rseq_eq_receiveSeq _ _ _ h₁
  have e₂ := rseq_eq_receiveSeq _ _ _ h₂
  exact ⟨by rw [← e₁, ← e₂], e₁.symm⟩

theorem receive_deterministic_witness :
    (some ([none, some Command.Ping], Parser.new) :
        Option (List (Option Command) × Parser)) =
      some ([none, some Command.Ping], Parser.new) ∧
    (some ([none, some Command.Ping], Parser.new) :
        Option (List (Option Command) × Parser)) =
      Parser.new.receiveSeq [0xFC, 0x01] :=
  receive_deterministic [0xFC, 0x01]
    (some ([none, some Command.Ping], Parser.new))
    (some ([none, some Command.Ping], Parser.new))
    (rseq_total Parser.new [0xFC, 0x01])
    (rseq_total Parser.new [0xFC, 0x01])

end Tockloader
